import Mathlib

/-!
Shallow embedding of the Book Finder single-page application
(`src/App.jsx`): the query builder, the result accumulator
(deduplicating merge), the filter/sort/paginate pipeline, the favorites
store, and the UI state machine driving local pagination.

JavaScript values are modelled as follows: optional record fields become
`Option`; falsy-or-default idioms (`x || d`) become `Option.getD` or an
explicit zero test; JSON numbers that the program only compares and
subtracts become `Int` (years) or `Nat` (counts, pages); the stateful
`Set`-based `uniqueBy` filter becomes structural recursion with an
explicit `seen` accumulator.
-/

namespace BookFinder

/-- Fixed client-side page size (`PER_PAGE = 20` in App.jsx). -/
def PER_PAGE : Nat := 20

/-- One book-search result record, as shaped by `fetchPage`: the raw
Open Library doc fields requested via the `fields` parameter, plus the
`__id` field the accumulator adds (`__id: d.key`). Fields that the JSON
may omit are `Option`. -/
structure Doc where
  __id : String
  key : String
  title : Option String
  author_name : Option (List String)
  first_publish_year : Option Int
  cover_i : Option Nat
  language : Option (List String)
  subject : Option (List String)
  isbn : Option (List String)
deriving DecidableEq

/-- Tag a fetched doc with its stable identifier:
`{ ...d, __id: d.key }` in `fetchPage`. -/
def withId (d : Doc) : Doc := { d with __id := d.key }

/-- Recursive core of `uniqueBy`: the JS version filters with a closure
over a mutable `seen : Set`; here the set is threaded explicitly as a
list of already-seen identifiers. -/
def uniqueByAux (seen : List String) : List Doc → List Doc
  | [] => []
  | x :: xs =>
    if x.__id ∈ seen then uniqueByAux seen xs
    else x :: uniqueByAux (x.__id :: seen) xs

/-- Embedding of `uniqueBy(arr, '__id')` from App.jsx: keep the first
occurrence of each `__id`, drop later ones. -/
def uniqueBy (arr : List Doc) : List Doc := uniqueByAux [] arr

/-- Identifier list of a doc list. -/
def keysOf (l : List Doc) : List String := l.map Doc.__id

/-- Fixed field-selection list sent as the `fields` parameter in
`buildSearchURL`. -/
def FIELDS : String :=
  "key,title,author_name,first_publish_year,cover_i,edition_key,language,subject,isbn"

/-- Embedding of `buildSearchURL`: the ordered query-parameter list of
the built URL. `URLSearchParams.set` is called once per distinct key, so
the parameter list is exactly the insertion sequence. -/
def buildSearchParams (mode query : String) (apiPage : Nat) :
    List (String × String) :=
  (if mode = "title" then [("title", query)]
   else if mode = "author" then [("author", query)]
   else if mode = "isbn" then [("isbn", query)]
   else if mode = "subject" then [("subject", query)]
   else [("q", query)])
  ++ [("page", toString apiPage), ("fields", FIELDS), ("limit", "100")]

/-- Publish year with the code's fallback: `d.first_publish_year || 0`. -/
def yearOf (d : Doc) : Int := d.first_publish_year.getD 0

/-- Title with the code's fallback: `a.title || ''`. -/
def titleOf (d : Doc) : String := d.title.getD ""

/-- Language-filter predicate: `(d.language || []).includes(lang)`,
applied only when `lang` is truthy (non-empty). -/
def langPasses (lang : String) (d : Doc) : Bool :=
  (d.language.getD []).contains lang

/-- Year-filter predicate: `y >= yf && y <= yt` with `y` the defaulted
publish year. -/
def yearPasses (yf yt : Int) (d : Doc) : Bool :=
  decide (yf ≤ yearOf d) && decide (yearOf d ≤ yt)

/-- Filtering stage of the `filtered` memo in App.jsx. The year bounds
come from text inputs: an empty input is `none` and defaults to `0`
respectively `9999` (`parseInt(yearFrom || '0')`, `parseInt(yearTo || '9999')`);
the language filter runs only when a language is selected (`if (lang)`). -/
def applyFilters (lang : String) (yearFrom yearTo : Option Int)
    (docs : List Doc) : List Doc :=
  let yf := yearFrom.getD 0
  let yt := yearTo.getD 9999
  let out := if lang ≠ "" then docs.filter (langPasses lang) else docs
  out.filter (yearPasses yf yt)

/-- Sorting stage of the `filtered` memo. `lc a b` models
`a.localeCompare(b) <= 0`, the locale order on strings; JavaScript's
`Array.prototype.sort` is a stable sort, embedded as `mergeSort`. Year
comparators `(a,b) => yearOf a - yearOf b` (and the flipped one) order
ascending respectively descending. Any other sort value — in the UI only
`relevance` — leaves the list untouched. -/
def applySort (sort : String) (lc : String → String → Bool)
    (out : List Doc) : List Doc :=
  if sort = "title" then
    out.mergeSort (fun a b => lc (titleOf a) (titleOf b))
  else if sort = "year-asc" then
    out.mergeSort (fun a b => decide (yearOf a ≤ yearOf b))
  else if sort = "year-desc" then
    out.mergeSort (fun a b => decide (yearOf b ≤ yearOf a))
  else out

/-- Number of local pages:
`totalPages = Math.max(1, Math.ceil(filtered.length / PER_PAGE))`. -/
def totalPages (n : Nat) : Nat := max 1 ((n + PER_PAGE - 1) / PER_PAGE)

/-- Visible page slice (`pageDocs` memo):
`filtered.slice((uiPage-1)*PER_PAGE, (uiPage-1)*PER_PAGE + PER_PAGE)`. -/
def pageDocs (filtered : List Doc) (uiPage : Nat) : List Doc :=
  (filtered.drop ((uiPage - 1) * PER_PAGE)).take PER_PAGE

/-- One persisted favorite: the reduced projection `toggleFav` stores. -/
structure Fav where
  __id : String
  key : String
  title : Option String
  author_name : Option (List String)
  first_publish_year : Option Int
  cover_i : Option Nat
  isbn : Option (List String)
deriving DecidableEq

/-- Reduced projection of a record built inside `toggleFav`. -/
def favProj (doc : Doc) : Fav :=
  { __id := doc.__id
    key := doc.key
    title := doc.title
    author_name := doc.author_name
    first_publish_year := doc.first_publish_year
    cover_i := doc.cover_i
    isbn := doc.isbn }

/-- Embedding of `toggleFav`: if a favorite with the record's `__id`
exists, remove it (`favs.filter(x => x.__id !== id)`); otherwise append
the reduced projection. -/
def toggleFav (favs : List Fav) (doc : Doc) : List Fav :=
  let id := doc.__id
  match favs.find? (fun x => x.__id == id) with
  | some _ => favs.filter (fun x => !(x.__id == id))
  | none => favs ++ [favProj doc]

/-- JSON body of a successful search response, as the code reads it:
`data.docs` (possibly absent, defaulted to `[]`) and `data.numFound`
(possibly absent; the code treats `0` and absent alike via `||`). -/
structure SearchResponse where
  docs : Option (List Doc)
  numFound : Option Nat

/-- Outcome of one `fetch` + `res.json()` round trip: a non-ok HTTP
status (`throw new Error('HTTP ' + status)`), a JSON parse failure
carrying the parse error's message, or a parsed body. -/
inductive FetchOutcome where
  | httpError (status : Nat)
  | parseError (msg : String)
  | success (data : SearchResponse)

/-- Application state: the search state plus the view state that the
claims touch (mode and query are handled per-call by the query builder). -/
structure AppState where
  docs : List Doc
  numFound : Nat
  apiPage : Nat
  loading : Bool
  error : String
  uiPage : Nat
  sort : String
  lang : String
  yearFrom : Option Int
  yearTo : Option Int
deriving DecidableEq

/-- Initial `useState` values of App.jsx. -/
def initState : AppState :=
  { docs := []
    numFound := 0
    apiPage := 1
    loading := false
    error := ""
    uiPage := 1
    sort := "relevance"
    lang := ""
    yearFrom := none
    yearTo := none }

/-- Error message stored by the catch block:
`err?.message || 'Something went wrong'`. -/
def errMsg (m : String) : String :=
  if m = "" then "Something went wrong" else m

/-- Embedding of `fetchPage(p)` run to completion on `outcome`: set the
loading flag and clear the error, then on success map `__id` onto the
docs, merge with `uniqueBy`, update `numFound` (`data.numFound ||
newDocs.length`) and the API page; on failure store the error message
and leave docs/numFound/apiPage alone; finally clear the loading flag. -/
def fetchPage (s : AppState) (p : Nat) (outcome : FetchOutcome) : AppState :=
  let s := { s with loading := true, error := "" }
  let s :=
    match outcome with
    | .httpError status => { s with error := errMsg ("HTTP " ++ toString status) }
    | .parseError msg => { s with error := errMsg msg }
    | .success data =>
      let newDocs := (data.docs.getD []).map withId
      { s with
          docs := uniqueBy (s.docs ++ newDocs)
          numFound :=
            match data.numFound with
            | some n => if n = 0 then newDocs.length else n
            | none => newDocs.length
          apiPage := p }
  { s with loading := false }

/-- Count of records passing the filters; the sort stage is a
permutation, so this is the `filtered.length` that `totalPages` uses. -/
def filteredCount (s : AppState) : Nat :=
  (applyFilters s.lang s.yearFrom s.yearTo s.docs).length

/-- Full filter-then-sort pipeline (`filtered` memo), parametrised by
the locale comparison. -/
def filteredDocs (lc : String → String → Bool) (s : AppState) : List Doc :=
  applySort s.sort lc (applyFilters s.lang s.yearFrom s.yearTo s.docs)

/-- Embedding of `resetResults`. -/
def resetResults (s : AppState) : AppState :=
  { s with docs := [], numFound := 0, apiPage := 1, uiPage := 1, error := "" }

/-- User-interface events that mutate the state the claims track. A
fetch-completing event carries its network outcome. -/
inductive Event where
  | submitSearch (outcome : FetchOutcome)
  | loadMore (outcome : FetchOutcome)
  | setLang (v : String)
  | setYearFrom (v : Option Int)
  | setYearTo (v : Option Int)
  | setSort (v : String)
  | prevPage
  | nextPage

/-- One UI transition, mirroring the event handlers in App.jsx:
`handleSearch` resets and fetches page 1; `loadMore` fetches
`apiPage + 1`; the four filter/sort `onChange` handlers also reset
`uiPage` to 1; Previous clamps at 1, Next clamps at `totalPages`. -/
def step (s : AppState) : Event → AppState
  | .submitSearch outcome => fetchPage (resetResults s) 1 outcome
  | .loadMore outcome => fetchPage s (s.apiPage + 1) outcome
  | .setLang v => { s with lang := v, uiPage := 1 }
  | .setYearFrom v => { s with yearFrom := v, uiPage := 1 }
  | .setYearTo v => { s with yearTo := v, uiPage := 1 }
  | .setSort v => { s with sort := v, uiPage := 1 }
  | .prevPage => { s with uiPage := max 1 (s.uiPage - 1) }
  | .nextPage => { s with uiPage := min (totalPages (filteredCount s)) (s.uiPage + 1) }

/-- States reachable from the initial render by UI events. -/
inductive Reachable : AppState → Prop where
  | init : Reachable initState
  | next {s : AppState} (e : Event) : Reachable s → Reachable (step s e)

/-- Sample record used to instantiate concrete inputs. -/
def docA : Doc :=
  { __id := "a", key := "a", title := some "Alpha", author_name := some ["X"]
    first_publish_year := some 1950, cover_i := some 1
    language := some ["eng"], subject := none, isbn := some ["111"] }

/-- Second sample record with a different stable identifier. -/
def docB : Doc :=
  { __id := "b", key := "b", title := some "Beta", author_name := none
    first_publish_year := none, cover_i := none
    language := none, subject := none, isbn := none }

/-! Lemmas about the deduplicating merge. -/

theorem uniqueByAux_congr {s₁ s₂ : List String} (h : ∀ k, k ∈ s₁ ↔ k ∈ s₂) :
    ∀ l : List Doc, uniqueByAux s₁ l = uniqueByAux s₂ l
  | [] => rfl
  | x :: xs => by
    simp only [uniqueByAux]
    by_cases hx : x.__id ∈ s₁
    · rw [if_pos hx, if_pos ((h _).mp hx), uniqueByAux_congr h xs]
    · rw [if_neg hx, if_neg (fun hc => hx ((h _).mpr hc))]
      have h' : ∀ k, k ∈ x.__id :: s₁ ↔ k ∈ x.__id :: s₂ := by
        intro k; simp only [List.mem_cons]; rw [h k]
      rw [uniqueByAux_congr h' xs]

theorem uniqueByAux_sublist (seen : List String) :
    ∀ l : List Doc, (uniqueByAux seen l).Sublist l
  | [] => List.Sublist.slnil
  | x :: xs => by
    simp only [uniqueByAux]
    split
    · exact (uniqueByAux_sublist seen xs).cons x
    · exact (uniqueByAux_sublist (x.__id :: seen) xs).cons₂ x

theorem uniqueByAux_keys (seen : List String) :
    ∀ l : List Doc, (keysOf (uniqueByAux seen l)).Nodup ∧
      ∀ k ∈ keysOf (uniqueByAux seen l), k ∉ seen
  | [] => by simp [uniqueByAux, keysOf]
  | x :: xs => by
    simp only [uniqueByAux]
    by_cases hx : x.__id ∈ seen
    · rw [if_pos hx]; exact uniqueByAux_keys seen xs
    · rw [if_neg hx]
      obtain ⟨hnd, hout⟩ := uniqueByAux_keys (x.__id :: seen) xs
      refine ⟨?_, ?_⟩
      · simp only [keysOf, List.map_cons, List.nodup_cons]
        exact ⟨fun hmem => (hout _ hmem) (List.mem_cons_self _ _), hnd⟩
      · intro k hk
        simp only [keysOf, List.map_cons, List.mem_cons] at hk
        rcases hk with rfl | hk
        · exact hx
        · exact fun hc => hout _ hk (List.mem_cons_of_mem _ hc)

theorem uniqueByAux_find? {k : String} :
    ∀ (seen : List String), k ∉ seen →
      ∀ l : List Doc, (uniqueByAux seen l).find? (fun x => x.__id == k)
        = l.find? (fun x => x.__id == k)
  | _, _, [] => rfl
  | seen, hk, x :: xs => by
    simp only [uniqueByAux]
    by_cases hx : x.__id ∈ seen
    · rw [if_pos hx]
      have hne : (x.__id == k) = false := by
        simp only [beq_eq_false_iff_ne]
        exact fun hc => hk (hc ▸ hx)
      rw [List.find?_cons_of_neg _ (by simp [hne]), uniqueByAux_find? seen hk xs]
    · rw [if_neg hx]
      by_cases hpk : x.__id = k
      · rw [List.find?_cons_of_pos _ (by simp [hpk]),
          List.find?_cons_of_pos _ (by simp [hpk])]
      · have hk' : k ∉ x.__id :: seen := by
          simp only [List.mem_cons]
          exact fun hc => hc.elim (fun h => hpk h.symm) hk
        rw [List.find?_cons_of_neg _ (by simp [hpk]),
          List.find?_cons_of_neg _ (by simp [hpk]),
          uniqueByAux_find? (x.__id :: seen) hk' xs]

theorem uniqueByAux_eq_self :
    ∀ (seen : List String) (l : List Doc), (∀ x ∈ l, x.__id ∉ seen) →
      (keysOf l).Nodup → uniqueByAux seen l = l
  | _, [], _, _ => rfl
  | seen, x :: xs, hout, hnd => by
    simp only [keysOf, List.map_cons, List.nodup_cons] at hnd
    rw [uniqueByAux, if_neg (hout x (List.mem_cons_self _ _))]
    congr 1
    refine uniqueByAux_eq_self _ xs ?_ hnd.2
    intro y hy
    simp only [List.mem_cons]
    rintro (hc | hc)
    · exact hnd.1 (hc ▸ List.mem_map_of_mem Doc.__id hy)
    · exact hout y (List.mem_cons_of_mem _ hy) hc

theorem uniqueByAux_eq_nil :
    ∀ (seen : List String) (m : List Doc), (∀ y ∈ m, y.__id ∈ seen) →
      uniqueByAux seen m = []
  | _, [], _ => rfl
  | seen, y :: ys, hall => by
    rw [uniqueByAux, if_pos (hall y (List.mem_cons_self _ _))]
    exact uniqueByAux_eq_nil seen ys fun z hz => hall z (List.mem_cons_of_mem _ hz)

theorem uniqueByAux_append (seen : List String) :
    ∀ l m : List Doc, uniqueByAux seen (l ++ m)
      = uniqueByAux seen l ++ uniqueByAux (keysOf (uniqueByAux seen l) ++ seen) m
  | [], m => by simp [uniqueByAux, keysOf]
  | x :: xs, m => by
    simp only [List.cons_append, uniqueByAux, List.append_eq]
    by_cases hx : x.__id ∈ seen
    · rw [if_pos hx, if_pos hx, uniqueByAux_append seen xs m]
    · rw [if_neg hx, if_neg hx, uniqueByAux_append (x.__id :: seen) xs m]
      simp only [keysOf, List.map_cons, List.cons_append]
      congr 1
      refine congrArg _ (uniqueByAux_congr ?_ m)
      intro k
      simp only [List.mem_append, List.mem_cons]
      tauto

theorem uniqueBy_append_of_nodup {l : List Doc} (h : (keysOf l).Nodup)
    (m : List Doc) : uniqueBy (l ++ m) = l ++ uniqueByAux (keysOf l) m := by
  have hself : uniqueByAux [] l = l := uniqueByAux_eq_self [] l (by simp) h
  rw [uniqueBy, uniqueByAux_append [] l m, hself, List.append_nil]

/-- C1: merging a new batch into the accumulated list with
`uniqueBy([...prev, ...newDocs], '__id')` yields a list whose
identifiers are pairwise distinct, which is a sublist of
`prev ++ newDocs` (so relative order, in particular of first
occurrences, is preserved), in which the record found for any
identifier is the first occurrence of that identifier in
`prev ++ newDocs` (first occurrence wins), and which retains every
identifier occurring in the input. -/
theorem merge_dedup_first_wins (old batch : List Doc) (k : String) :
    (keysOf (uniqueBy (old ++ batch))).Nodup ∧
    (uniqueBy (old ++ batch)).Sublist (old ++ batch) ∧
    (uniqueBy (old ++ batch)).find? (fun x => x.__id == k)
      = (old ++ batch).find? (fun x => x.__id == k) ∧
    (k ∈ keysOf (old ++ batch) ↔ k ∈ keysOf (uniqueBy (old ++ batch))) := by
  refine ⟨(uniqueByAux_keys [] (old ++ batch)).1,
    uniqueByAux_sublist [] (old ++ batch),
    uniqueByAux_find? [] (by simp) (old ++ batch), ?_, ?_⟩
  · intro hk
    simp only [keysOf, List.mem_map] at hk ⊢
    obtain ⟨x, hx, hxk⟩ := hk
    have hsome : ((old ++ batch).find? (fun x => x.__id == k)).isSome := by
      rw [List.find?_isSome]
      exact ⟨x, hx, by simp [hxk]⟩
    rw [← uniqueByAux_find? [] (by simp) (old ++ batch)] at hsome
    rw [List.find?_isSome] at hsome
    obtain ⟨y, hy, hyk⟩ := hsome
    exact ⟨y, hy, by simpa using hyk⟩
  · intro hk
    simp only [keysOf, List.mem_map] at hk ⊢
    obtain ⟨x, hx, hxk⟩ := hk
    exact ⟨x, (uniqueByAux_sublist [] (old ++ batch)).mem hx, hxk⟩

/-- C10: when every identifier of the batch already occurs in a
duplicate-free accumulated list, the merge leaves the list exactly
unchanged. -/
theorem merge_idempotent {prev batch : List Doc}
    (hnd : (keysOf prev).Nodup)
    (hsub : ∀ y ∈ batch, y.__id ∈ keysOf prev) :
    uniqueBy (prev ++ batch) = prev := by
  rw [uniqueBy_append_of_nodup hnd batch, uniqueByAux_eq_nil _ _ hsub,
    List.append_nil]

/-! Pagination lemmas. -/

theorem join_pages (P : Nat) :
    ∀ (tp : Nat) (l : List Doc), l.length ≤ tp * P →
      (List.range tp).flatMap (fun i => (l.drop (i * P)).take P) = l
  | 0, l, hl => by
    have : l = [] := List.eq_nil_of_length_eq_zero (Nat.le_zero.mp (by simpa using hl))
    simp [this]
  | tp + 1, l, hl => by
    rw [List.range_succ_eq_map, List.flatMap_cons, List.flatMap_map]
    have hrest : ∀ i : Nat, ((l.drop ((i + 1) * P)).take P)
        = (((l.drop P).drop (i * P)).take P) := by
      intro i
      rw [List.drop_drop]
      ring_nf
    simp only [Nat.succ_eq_add_one]
    calc (l.drop (0 * P)).take P
          ++ (List.range tp).flatMap (fun i => (l.drop ((i + 1) * P)).take P)
        = l.take P ++ (List.range tp).flatMap
            (fun i => (((l.drop P).drop (i * P)).take P)) := by
          simp only [Nat.zero_mul, List.drop_zero]
          congr 1
          exact List.flatMap_congr fun i _ => hrest i
      _ = l.take P ++ l.drop P := by
          congr 1
          refine join_pages P tp (l.drop P) ?_
          simp only [List.length_drop]
          calc l.length - P ≤ (tp + 1) * P - P := by
                exact Nat.sub_le_sub_right hl P
            _ = tp * P := by ring_nf; omega
      _ = l := List.take_append_drop P l

/-- C2 counterexample: for an empty filtered list the code yields
`totalPages = max 1 (ceil 0 over PER_PAGE) = 1` pages, not
`ceil(0 / PER_PAGE) = 0` as the claim states for N = 0. -/
theorem pagination_total_counterexample :
    totalPages (List.length ([] : List Doc))
      ≠ (List.length ([] : List Doc) + PER_PAGE - 1) / PER_PAGE := by
  decide

/-- C2 (amended): local pagination yields `max 1 (ceil(N/P))` pages
whose concatenation in order is exactly the filtered list; page `k`
(for `1 ≤ k ≤ totalPages`) is the slice starting at `(k-1)·P` of length
`min P (N - (k-1)·P)` (hence at most `P`); when `N > 0` the last page
contains `N mod P` entries (or `P` when `N mod P = 0`); pages beyond
`totalPages` are empty. -/
theorem pagination_spec (l : List Doc) (k : Nat)
    (hk1 : 1 ≤ k) (hk2 : k ≤ totalPages l.length) :
    totalPages l.length = max 1 ((l.length + PER_PAGE - 1) / PER_PAGE) ∧
    (List.range (totalPages l.length)).flatMap (fun i => pageDocs l (i + 1)) = l ∧
    (pageDocs l k).length = min PER_PAGE (l.length - (k - 1) * PER_PAGE) ∧
    (0 < l.length → (pageDocs l (totalPages l.length)).length
      = if l.length % PER_PAGE = 0 then PER_PAGE else l.length % PER_PAGE) ∧
    (∀ j, totalPages l.length < j → pageDocs l j = []) := by
  have hcover : l.length ≤ totalPages l.length * PER_PAGE := by
    simp only [totalPages, PER_PAGE]
    omega
  refine ⟨rfl, ?_, ?_, ?_, ?_⟩
  · calc (List.range (totalPages l.length)).flatMap (fun i => pageDocs l (i + 1))
        = (List.range (totalPages l.length)).flatMap
            (fun i => (l.drop (i * PER_PAGE)).take PER_PAGE) :=
          List.flatMap_congr fun i _ => by simp [pageDocs]
      _ = l := join_pages PER_PAGE (totalPages l.length) l hcover
  · simp [pageDocs, List.length_take, List.length_drop]
  · intro hpos
    have hlen : (pageDocs l (totalPages l.length)).length
        = min PER_PAGE (l.length - (totalPages l.length - 1) * PER_PAGE) := by
      simp [pageDocs, List.length_take, List.length_drop]
    rw [hlen]
    simp only [totalPages, PER_PAGE] at *
    split <;> omega
  · intro j hj
    have hdrop : l.length ≤ (j - 1) * PER_PAGE := by
      simp only [totalPages, PER_PAGE] at hj ⊢
      omega
    simp [pageDocs, List.drop_eq_nil_of_le hdrop]

/-- C2 witness instantiation at a one-element list and page 1. -/
theorem pagination_spec_witness :
    1 ≤ 1 ∧ 1 ≤ totalPages [docA].length ∧
    (totalPages [docA].length
        = max 1 (([docA].length + PER_PAGE - 1) / PER_PAGE) ∧
      (List.range (totalPages [docA].length)).flatMap
        (fun i => pageDocs [docA] (i + 1)) = [docA] ∧
      (pageDocs [docA] 1).length
        = min PER_PAGE ([docA].length - (1 - 1) * PER_PAGE) ∧
      (0 < [docA].length → (pageDocs [docA] (totalPages [docA].length)).length
        = if [docA].length % PER_PAGE = 0 then PER_PAGE
          else [docA].length % PER_PAGE) ∧
      (∀ j, totalPages [docA].length < j → pageDocs [docA] j = [])) :=
  ⟨le_refl 1, by decide, pagination_spec [docA] 1 (by decide) (by decide)⟩

/-! Query-builder claim. -/

/-- C4: for every mode, (trimmed, non-empty) query and API page, the
built parameter list contains exactly one of the five search
parameters, chosen according to the mode, and always contains the page
number, the fixed field-selection list and the fixed limit hint. -/
theorem buildSearchURL_params (mode query : String) (apiPage : Nat)
    (hq : query ≠ "") (hp : 1 ≤ apiPage) :
    ((buildSearchParams mode query apiPage).countP
        (fun kv => kv.1 == "title" || kv.1 == "author" || kv.1 == "isbn"
          || kv.1 == "subject" || kv.1 == "q") = 1) ∧
    (mode = "title" → ("title", query) ∈ buildSearchParams mode query apiPage) ∧
    (mode = "author" → ("author", query) ∈ buildSearchParams mode query apiPage) ∧
    (mode = "isbn" → ("isbn", query) ∈ buildSearchParams mode query apiPage) ∧
    (mode = "subject" → ("subject", query) ∈ buildSearchParams mode query apiPage) ∧
    (mode ≠ "title" → mode ≠ "author" → mode ≠ "isbn" → mode ≠ "subject" →
      ("q", query) ∈ buildSearchParams mode query apiPage) ∧
    ("page", toString apiPage) ∈ buildSearchParams mode query apiPage ∧
    ("fields", FIELDS) ∈ buildSearchParams mode query apiPage ∧
    ("limit", "100") ∈ buildSearchParams mode query apiPage := by
  by_cases h1 : mode = "title"
  · simp [buildSearchParams, h1, List.countP_cons]
  · by_cases h2 : mode = "author"
    · simp [buildSearchParams, h1, h2, List.countP_cons]
    · by_cases h3 : mode = "isbn"
      · simp [buildSearchParams, h1, h2, h3, List.countP_cons]
      · by_cases h4 : mode = "subject"
        · simp [buildSearchParams, h1, h2, h3, h4, List.countP_cons]
        · simp [buildSearchParams, h1, h2, h3, h4, List.countP_cons]

/-- C4 witness instantiation: title search for "Dune", page 1. -/
theorem buildSearchURL_params_witness :
    ("Dune" : String) ≠ "" ∧ 1 ≤ 1 ∧
    ((buildSearchParams "title" "Dune" 1).countP
        (fun kv => kv.1 == "title" || kv.1 == "author" || kv.1 == "isbn"
          || kv.1 == "subject" || kv.1 == "q") = 1) ∧
    (("title" : String) = "title" →
      ("title", "Dune") ∈ buildSearchParams "title" "Dune" 1) ∧
    (("title" : String) = "author" →
      ("author", "Dune") ∈ buildSearchParams "title" "Dune" 1) ∧
    (("title" : String) = "isbn" →
      ("isbn", "Dune") ∈ buildSearchParams "title" "Dune" 1) ∧
    (("title" : String) = "subject" →
      ("subject", "Dune") ∈ buildSearchParams "title" "Dune" 1) ∧
    (("title" : String) ≠ "title" → ("title" : String) ≠ "author" →
      ("title" : String) ≠ "isbn" → ("title" : String) ≠ "subject" →
      ("q", "Dune") ∈ buildSearchParams "title" "Dune" 1) ∧
    ("page", toString 1) ∈ buildSearchParams "title" "Dune" 1 ∧
    ("fields", FIELDS) ∈ buildSearchParams "title" "Dune" 1 ∧
    ("limit", "100") ∈ buildSearchParams "title" "Dune" 1 :=
  ⟨by decide, le_refl 1,
    buildSearchURL_params "title" "Dune" 1 (by decide) (le_refl 1)⟩

/-! Filtering claim. -/

/-- C5: a record appears in the filter stage's output iff it is an
accumulated record passing both predicates: the language predicate
(no language selected, or the record's language list contains the
selected code) and the inclusive year-range predicate with the
defaulted bounds (0 and 9999) and defaulted publish year (0). -/
theorem filter_sound_complete (lang : String) (yearFrom yearTo : Option Int)
    (docs : List Doc) (d : Doc) :
    d ∈ applyFilters lang yearFrom yearTo docs ↔
      d ∈ docs ∧ (lang = "" ∨ lang ∈ d.language.getD [])
        ∧ (yearFrom.getD 0 ≤ yearOf d ∧ yearOf d ≤ yearTo.getD 9999) := by
  by_cases hl : lang = ""
  · simp [applyFilters, hl, List.mem_filter, yearPasses]
  · have hif : (if lang ≠ "" then docs.filter (langPasses lang) else docs)
        = docs.filter (langPasses lang) := if_pos hl
    simp only [applyFilters, hif, List.mem_filter]
    constructor
    · rintro ⟨⟨hd, hlang⟩, hy⟩
      refine ⟨hd, Or.inr ?_, ?_⟩
      · simpa [langPasses, List.elem_iff] using hlang
      · simpa [yearPasses, Bool.and_eq_true, decide_eq_true_eq] using hy
    · rintro ⟨hd, hlang, hy⟩
      rcases hlang with h | h
      · exact absurd h hl
      · refine ⟨⟨hd, ?_⟩, ?_⟩
        · simpa [langPasses, List.elem_iff] using h
        · simpa [yearPasses, Bool.and_eq_true, decide_eq_true_eq] using hy

/-! Favorites claims. -/

/-- Sample favorite: the projection of `docA`. -/
def favA : Fav := favProj docA

/-- Sample favorite: the projection of `docB`. -/
def favB : Fav := favProj docB

/-- C3 counterexample: with the favorites list `[favA, favB]` and the
record `docA` (whose favorite exists and is not last), toggling twice
yields `[favB, favA]`, not the original `[favA, favB]`. -/
theorem toggle_twice_counterexample :
    toggleFav (toggleFav [favA, favB] docA) docA ≠ [favA, favB] := by
  decide

/-- C3 (amended): `toggle` adds the reduced projection when no favorite
with the record's identifier exists and removes the matching favorites
when one exists; toggling twice restores the original list when the
identifier was not present initially, while for an initially present
identifier the twice-toggled list is the original with the matching
favorites removed and the projection appended (so the round trip is
exact only in the add-then-remove direction). -/
theorem toggle_roundtrip (favs : List Fav) (doc : Doc) :
    (favs.find? (fun x => x.__id == doc.__id) = none →
      toggleFav favs doc = favs ++ [favProj doc] ∧
      toggleFav (toggleFav favs doc) doc = favs) ∧
    (∀ f, favs.find? (fun x => x.__id == doc.__id) = some f →
      toggleFav favs doc = favs.filter (fun x => !(x.__id == doc.__id)) ∧
      toggleFav (toggleFav favs doc) doc
        = favs.filter (fun x => !(x.__id == doc.__id)) ++ [favProj doc]) := by
  constructor
  · intro hnone
    have h1 : toggleFav favs doc = favs ++ [favProj doc] := by
      simp [toggleFav, hnone]
    refine ⟨h1, ?_⟩
    rw [h1]
    have hfind : (favs ++ [favProj doc]).find? (fun x => x.__id == doc.__id)
        = some (favProj doc) := by
      rw [List.find?_append, hnone]
      simp [favProj]
    have hall : ∀ x ∈ favs, ¬((fun x : Fav => x.__id == doc.__id) x = true) :=
      List.find?_eq_none.mp hnone
    simp only [toggleFav, hfind, List.filter_append]
    rw [List.filter_eq_self.mpr fun a ha => by
        simpa using hall a ha]
    simp [favProj]
  · intro f hsome
    have h1 : toggleFav favs doc
        = favs.filter (fun x => !(x.__id == doc.__id)) := by
      simp [toggleFav, hsome]
    refine ⟨h1, ?_⟩
    rw [h1]
    have hfind : (favs.filter (fun x => !(x.__id == doc.__id))).find?
        (fun x => x.__id == doc.__id) = none := by
      rw [List.find?_eq_none]
      intro x hx
      have := List.of_mem_filter hx
      simpa using this
    simp [toggleFav, hfind]

/-- C3 witness instantiation at `[favA, favB]` and `docA`. -/
theorem toggle_roundtrip_witness :
    (([favA, favB] : List Fav).find? (fun x => x.__id == docA.__id) = none →
      toggleFav [favA, favB] docA = [favA, favB] ++ [favProj docA] ∧
      toggleFav (toggleFav [favA, favB] docA) docA = [favA, favB]) ∧
    (∀ f, ([favA, favB] : List Fav).find? (fun x => x.__id == docA.__id)
        = some f →
      toggleFav [favA, favB] docA
        = ([favA, favB] : List Fav).filter (fun x => !(x.__id == docA.__id)) ∧
      toggleFav (toggleFav [favA, favB] docA) docA
        = ([favA, favB] : List Fav).filter (fun x => !(x.__id == docA.__id))
          ++ [favProj docA]) :=
  toggle_roundtrip [favA, favB] docA

/-! Fetch-outcome claims. -/

theorem errMsg_ne_empty (m : String) : errMsg m ≠ "" := by
  unfold errMsg
  split
  · decide
  · assumption

/-- C7: when the fetch fails (non-success HTTP status or JSON parse
failure) the accumulated records, the total-match count and the API
page are unchanged and a non-empty error message is surfaced; the
loading flag is cleared after every outcome. -/
theorem fetch_error_atomic (s : AppState) (p : Nat) (outcome : FetchOutcome)
    (hfail : ∀ data, outcome ≠ .success data) :
    (fetchPage s p outcome).docs = s.docs ∧
    (fetchPage s p outcome).numFound = s.numFound ∧
    (fetchPage s p outcome).apiPage = s.apiPage ∧
    (fetchPage s p outcome).error ≠ "" ∧
    ∀ o : FetchOutcome, (fetchPage s p o).loading = false := by
  have hload : ∀ o : FetchOutcome, (fetchPage s p o).loading = false := by
    intro o; cases o <;> rfl
  cases outcome with
  | httpError status =>
    exact ⟨rfl, rfl, rfl, errMsg_ne_empty ("HTTP " ++ toString status), hload⟩
  | parseError msg => exact ⟨rfl, rfl, rfl, errMsg_ne_empty msg, hload⟩
  | success data => exact absurd rfl (hfail data)

/-- C7 witness instantiation at the initial state and an HTTP 404. -/
theorem fetch_error_atomic_witness :
    (∀ data, FetchOutcome.httpError 404 ≠ .success data) ∧
    ((fetchPage initState 1 (.httpError 404)).docs = initState.docs ∧
      (fetchPage initState 1 (.httpError 404)).numFound = initState.numFound ∧
      (fetchPage initState 1 (.httpError 404)).apiPage = initState.apiPage ∧
      (fetchPage initState 1 (.httpError 404)).error ≠ "" ∧
      ∀ o : FetchOutcome, (fetchPage initState 1 o).loading = false) :=
  ⟨fun _ h => FetchOutcome.noConfusion h,
    fetch_error_atomic initState 1 (.httpError 404)
      (fun _ h => FetchOutcome.noConfusion h)⟩

/-- C8 counterexample: with `[docA]` accumulated and a response that
carries no `numFound` and whose single doc duplicates the accumulated
identifier, the code sets the total-match count to 1 (the raw batch
length) although 0 records were actually added after deduplication. -/
theorem fetch_numFound_counterexample :
    ((fetchPage { initState with docs := [docA] } 2
        (.success { docs := some [docA], numFound := none })).numFound = 1) ∧
    ((fetchPage { initState with docs := [docA] } 2
        (.success { docs := some [docA], numFound := none })).docs.length
      - ([docA] : List Doc).length = 0) := by
  decide

/-- C8 (amended): on a successful fetch the total-match count becomes
the response's `numFound` when that field is present and non-zero;
otherwise (absent, or zero — both falsy under `||`) it falls back to
the number of records in the fetched batch, before deduplication. -/
theorem fetch_numFound_update (s : AppState) (p : Nat)
    (data : SearchResponse) :
    (∀ n, data.numFound = some n → n ≠ 0 →
      (fetchPage s p (.success data)).numFound = n) ∧
    ((data.numFound = none ∨ data.numFound = some 0) →
      (fetchPage s p (.success data)).numFound
        = (data.docs.getD []).length) := by
  constructor
  · intro n hn hn0
    simp [fetchPage, hn, hn0]
  · rintro (hn | hn) <;> simp [fetchPage, hn]

/-- C8 witness instantiation: a response with `numFound = 7`. -/
theorem fetch_numFound_update_witness :
    (∀ n, ({ docs := some [docA], numFound := some 7 }
        : SearchResponse).numFound = some n → n ≠ 0 →
      (fetchPage initState 1
          (.success { docs := some [docA], numFound := some 7 })).numFound = n) ∧
    ((({ docs := some [docA], numFound := some 7 }
        : SearchResponse).numFound = none ∨
      ({ docs := some [docA], numFound := some 7 }
        : SearchResponse).numFound = some 0) →
      (fetchPage initState 1
          (.success { docs := some [docA], numFound := some 7 })).numFound
        = ((({ docs := some [docA], numFound := some 7 }
            : SearchResponse).docs.getD []).length)) :=
  fetch_numFound_update initState 1 { docs := some [docA], numFound := some 7 }

/-- C10 witness instantiation: re-merging an already-present record. -/
theorem merge_idempotent_witness :
    (keysOf [docA]).Nodup ∧
    (∀ y ∈ ([docA] : List Doc), y.__id ∈ keysOf [docA]) ∧
    uniqueBy ([docA] ++ [docA]) = [docA] :=
  ⟨by decide, by decide, merge_idempotent (by decide) (by decide)⟩

/-! Sorting claim. Stability of JavaScript's `Array.prototype.sort`
(guaranteed by the language spec) is embedded via `List.mergeSort`. -/

theorem mergeSort_filter_key {le : Doc → Doc → Bool}
    (htrans : ∀ a b c, le a b = true → le b c = true → le a c = true)
    (htot : ∀ a b, (le a b || le b a) = true)
    (p : Doc → Bool)
    (hp : ∀ a b, p a = true → p b = true → le a b = true)
    (l : List Doc) :
    (l.mergeSort le).filter p = l.filter p := by
  have hpair : (l.filter p).Pairwise (fun a b => le a b = true) :=
    List.pairwise_of_forall_mem_list fun a ha b hb =>
      hp a b (List.of_mem_filter ha) (List.of_mem_filter hb)
  have hsub : (l.filter p).Sublist (l.mergeSort le) :=
    List.sublist_mergeSort htrans htot hpair (List.filter_sublist l)
  have hidem : (l.filter p).filter p = l.filter p :=
    List.filter_eq_self.mpr fun a ha => List.of_mem_filter ha
  have hsub2 := List.Sublist.filter p hsub
  rw [hidem] at hsub2
  have hlen : ((l.mergeSort le).filter p).length = (l.filter p).length := by
    rw [← List.countP_eq_length_filter, ← List.countP_eq_length_filter]
    exact List.Perm.countP_eq p (List.mergeSort_perm l le)
  exact (hsub2.eq_of_length hlen.symm).symm

/-- C6: with `lc` any consistent (transitive and total) locale
comparison, sort value `relevance` performs no reordering; `title`
permutes the list into one sorted by `lc` on the titles (missing titles
as `""`) and is stable: records sharing a title key keep their relative
order; `year-asc` and `year-desc` permute the list into ones sorted
ascending respectively descending by publish year (missing years as 0). -/
theorem sort_spec (lc : String → String → Bool)
    (htrans : ∀ a b c, lc a b = true → lc b c = true → lc a c = true)
    (htot : ∀ a b, (lc a b || lc b a) = true)
    (out : List Doc) (t : String) :
    applySort "relevance" lc out = out ∧
    (applySort "title" lc out).Perm out ∧
    (applySort "title" lc out).Pairwise
      (fun a b => lc (titleOf a) (titleOf b) = true) ∧
    (applySort "title" lc out).filter (fun d => titleOf d == t)
      = out.filter (fun d => titleOf d == t) ∧
    (applySort "year-asc" lc out).Perm out ∧
    (applySort "year-asc" lc out).Pairwise (fun a b => yearOf a ≤ yearOf b) ∧
    (applySort "year-desc" lc out).Perm out ∧
    (applySort "year-desc" lc out).Pairwise (fun a b => yearOf b ≤ yearOf a) := by
  have hrel : applySort "relevance" lc out = out := by simp [applySort]
  have htitle : applySort "title" lc out
      = out.mergeSort (fun a b => lc (titleOf a) (titleOf b)) := by
    simp [applySort]
  have hyasc : applySort "year-asc" lc out
      = out.mergeSort (fun a b => decide (yearOf a ≤ yearOf b)) := by
    simp [applySort]
  have hydesc : applySort "year-desc" lc out
      = out.mergeSort (fun a b => decide (yearOf b ≤ yearOf a)) := by
    simp [applySort]
  have httrans : ∀ a b c : Doc, lc (titleOf a) (titleOf b) = true →
      lc (titleOf b) (titleOf c) = true → lc (titleOf a) (titleOf c) = true :=
    fun a b c hab hbc => htrans _ _ _ hab hbc
  have httot : ∀ a b : Doc,
      (lc (titleOf a) (titleOf b) || lc (titleOf b) (titleOf a)) = true :=
    fun a b => htot _ _
  have hatrans : ∀ a b c : Doc, decide (yearOf a ≤ yearOf b) = true →
      decide (yearOf b ≤ yearOf c) = true →
      decide (yearOf a ≤ yearOf c) = true := by
    intro a b c hab hbc
    simp only [decide_eq_true_eq] at *
    exact le_trans hab hbc
  have hatot : ∀ a b : Doc,
      (decide (yearOf a ≤ yearOf b) || decide (yearOf b ≤ yearOf a)) = true := by
    intro a b
    simp only [Bool.or_eq_true, decide_eq_true_eq]
    exact le_total _ _
  have hdtrans : ∀ a b c : Doc, decide (yearOf b ≤ yearOf a) = true →
      decide (yearOf c ≤ yearOf b) = true →
      decide (yearOf c ≤ yearOf a) = true := by
    intro a b c hab hbc
    simp only [decide_eq_true_eq] at *
    exact le_trans hbc hab
  have hdtot : ∀ a b : Doc,
      (decide (yearOf b ≤ yearOf a) || decide (yearOf a ≤ yearOf b)) = true := by
    intro a b
    simp only [Bool.or_eq_true, decide_eq_true_eq]
    exact le_total _ _
  refine ⟨hrel, ?_, ?_, ?_, ?_, ?_, ?_, ?_⟩
  · rw [htitle]; exact List.mergeSort_perm out _
  · rw [htitle]; exact List.sorted_mergeSort httrans httot out
  · rw [htitle]
    refine mergeSort_filter_key httrans httot _ ?_ out
    intro a b ha hb
    have ha' : titleOf a = t := by simpa using ha
    have hb' : titleOf b = t := by simpa using hb
    rw [ha', hb']
    have := htot t t
    simpa using this
  · rw [hyasc]; exact List.mergeSort_perm out _
  · rw [hyasc]
    have := List.sorted_mergeSort hatrans hatot out
    exact this.imp fun h => by simpa using h
  · rw [hydesc]; exact List.mergeSort_perm out _
  · rw [hydesc]
    have := List.sorted_mergeSort hdtrans hdtot out
    exact this.imp fun h => by simpa using h

/-- Concrete consistent string comparison used to instantiate the
sorting theorem: the default lexicographic order. -/
def lcDefault : String → String → Bool := fun a b => decide (a ≤ b)

theorem lcDefault_trans : ∀ a b c, lcDefault a b = true →
    lcDefault b c = true → lcDefault a c = true := by
  intro a b c hab hbc
  simp only [lcDefault, decide_eq_true_eq] at *
  exact le_trans hab hbc

theorem lcDefault_total : ∀ a b, (lcDefault a b || lcDefault b a) = true := by
  intro a b
  simp only [lcDefault, Bool.or_eq_true, decide_eq_true_eq]
  exact le_total a b

/-- C6 witness instantiation at a concrete comparison and list. -/
theorem sort_spec_witness :
    applySort "relevance" lcDefault [docA, docB] = [docA, docB] ∧
    (applySort "title" lcDefault [docA, docB]).Perm [docA, docB] ∧
    (applySort "title" lcDefault [docA, docB]).Pairwise
      (fun a b => lcDefault (titleOf a) (titleOf b) = true) ∧
    (applySort "title" lcDefault [docA, docB]).filter
        (fun d => titleOf d == "Alpha")
      = ([docA, docB] : List Doc).filter (fun d => titleOf d == "Alpha") ∧
    (applySort "year-asc" lcDefault [docA, docB]).Perm [docA, docB] ∧
    (applySort "year-asc" lcDefault [docA, docB]).Pairwise
      (fun a b => yearOf a ≤ yearOf b) ∧
    (applySort "year-desc" lcDefault [docA, docB]).Perm [docA, docB] ∧
    (applySort "year-desc" lcDefault [docA, docB]).Pairwise
      (fun a b => yearOf b ≤ yearOf a) :=
  sort_spec lcDefault lcDefault_trans lcDefault_total [docA, docB] "Alpha"

/-! State-machine lemmas for the local-page invariant. -/

theorem fetchPage_view (s : AppState) (p : Nat) (o : FetchOutcome) :
    (fetchPage s p o).uiPage = s.uiPage ∧ (fetchPage s p o).lang = s.lang ∧
    (fetchPage s p o).yearFrom = s.yearFrom ∧
    (fetchPage s p o).yearTo = s.yearTo ∧
    (fetchPage s p o).sort = s.sort := by
  cases o <;> exact ⟨rfl, rfl, rfl, rfl, rfl⟩

theorem applyFilters_append (lang : String) (yf yt : Option Int)
    (d₁ d₂ : List Doc) :
    applyFilters lang yf yt (d₁ ++ d₂)
      = applyFilters lang yf yt d₁ ++ applyFilters lang yf yt d₂ := by
  by_cases hl : lang = "" <;> simp [applyFilters, hl, List.filter_append]

theorem totalPages_mono {n m : Nat} (h : n ≤ m) :
    totalPages n ≤ totalPages m := by
  simp only [totalPages, PER_PAGE]
  omega

theorem totalPages_pos (n : Nat) : 1 ≤ totalPages n := le_max_left 1 _

theorem fetchPage_nodup (s : AppState) (p : Nat) (o : FetchOutcome)
    (hnd : (keysOf s.docs).Nodup) :
    (keysOf (fetchPage s p o).docs).Nodup := by
  cases o with
  | httpError status => exact hnd
  | parseError msg => exact hnd
  | success data => exact (uniqueByAux_keys [] _).1

theorem filteredCount_fetch_success (s : AppState) (p : Nat)
    (data : SearchResponse) (hnd : (keysOf s.docs).Nodup) :
    filteredCount s ≤ filteredCount (fetchPage s p (.success data)) := by
  have hdocs : (fetchPage s p (.success data)).docs
      = s.docs ++ uniqueByAux (keysOf s.docs)
          ((data.docs.getD []).map withId) :=
    uniqueBy_append_of_nodup hnd _
  have hview := fetchPage_view s p (.success data)
  unfold filteredCount
  rw [hview.2.1, hview.2.2.1, hview.2.2.2.1, hdocs, applyFilters_append]
  simp

theorem reachable_inv {s : AppState} (hs : Reachable s) :
    (keysOf s.docs).Nodup ∧ 1 ≤ s.uiPage ∧
      s.uiPage ≤ totalPages (filteredCount s) := by
  induction hs with
  | init => exact ⟨by decide, le_refl 1, by decide⟩
  | next e hs ih =>
    obtain ⟨hnd, h1, h2⟩ := ih
    rename_i s
    cases e with
    | submitSearch o =>
      simp only [step]
      have hnd0 : (keysOf (resetResults s).docs).Nodup := by
        simp [resetResults, keysOf]
      refine ⟨fetchPage_nodup _ _ _ hnd0, ?_, ?_⟩
      · rw [(fetchPage_view (resetResults s) 1 o).1]
        exact le_refl 1
      · rw [(fetchPage_view (resetResults s) 1 o).1]
        exact totalPages_pos _
    | loadMore o =>
      simp only [step]
      cases o with
      | httpError status => exact ⟨hnd, h1, h2⟩
      | parseError msg => exact ⟨hnd, h1, h2⟩
      | success data =>
        refine ⟨fetchPage_nodup s _ _ hnd, ?_, ?_⟩
        · rw [(fetchPage_view s (s.apiPage + 1) (.success data)).1]
          exact h1
        · rw [(fetchPage_view s (s.apiPage + 1) (.success data)).1]
          exact h2.trans
            (totalPages_mono (filteredCount_fetch_success s _ data hnd))
    | setLang v => exact ⟨hnd, le_refl 1, totalPages_pos _⟩
    | setYearFrom v => exact ⟨hnd, le_refl 1, totalPages_pos _⟩
    | setYearTo v => exact ⟨hnd, le_refl 1, totalPages_pos _⟩
    | setSort v => exact ⟨hnd, le_refl 1, totalPages_pos _⟩
    | prevPage =>
      refine ⟨hnd, le_max_left 1 _, ?_⟩
      exact Nat.max_le.mpr ⟨totalPages_pos _, (Nat.sub_le _ _).trans h2⟩
    | nextPage =>
      refine ⟨hnd, le_min (totalPages_pos _) (by omega), min_le_left _ _⟩

/-- C9 counterexample: right after a language-filter change in the
initial session, the local page is 1 but the filtered count is 0, so
`ceil(0 / PER_PAGE) = 0` and the page number does not lie in
`[1, ceil(filtered-count / page-size)]` — the code's bound is
`max 1 (ceil ...)`, not `ceil ...`. -/
theorem page_invariant_counterexample :
    Reachable (step initState (.setLang "eng")) ∧
    ¬ (1 ≤ (step initState (.setLang "eng")).uiPage ∧
       (step initState (.setLang "eng")).uiPage
         ≤ (filteredCount (step initState (.setLang "eng"))
             + PER_PAGE - 1) / PER_PAGE) :=
  ⟨Reachable.next (.setLang "eng") Reachable.init, by decide⟩

/-- C9 (amended): after any change to the language filter, either year
bound, or the sort order, the local page number is reset to 1; and in
every reachable state the local page number lies within
`[1, max 1 (ceil(filtered-count / page-size))]`, the code's
`totalPages` bound that the Previous/Next handlers clamp to. -/
theorem page_invariant (s : AppState) (hs : Reachable s) :
    (1 ≤ s.uiPage ∧ s.uiPage ≤ totalPages (filteredCount s)) ∧
    (∀ v, (step s (.setLang v)).uiPage = 1) ∧
    (∀ v, (step s (.setYearFrom v)).uiPage = 1) ∧
    (∀ v, (step s (.setYearTo v)).uiPage = 1) ∧
    (∀ v, (step s (.setSort v)).uiPage = 1) :=
  ⟨⟨(reachable_inv hs).2.1, (reachable_inv hs).2.2⟩,
    fun _ => rfl, fun _ => rfl, fun _ => rfl, fun _ => rfl⟩

/-- C9 witness instantiation at the initial state. -/
theorem page_invariant_witness :
    ((1 ≤ initState.uiPage ∧
        initState.uiPage ≤ totalPages (filteredCount initState)) ∧
      (∀ v, (step initState (.setLang v)).uiPage = 1) ∧
      (∀ v, (step initState (.setYearFrom v)).uiPage = 1) ∧
      (∀ v, (step initState (.setYearTo v)).uiPage = 1) ∧
      (∀ v, (step initState (.setSort v)).uiPage = 1)) :=
  page_invariant initState Reachable.init

end BookFinder
